import Mathlib

/-!
Verification of the DataGuardian tracker-detection, classification and scoring
pipeline.  Every definition below is a shallow embedding of a function of the
repository (backend controller, gemini service, tracker service, frontend
scoring); the theorems check the specification's claims against them.
-/

namespace DataGuardian

/-! ### Basic string operations (JS `String.includes`, `startsWith`, `toLowerCase`) -/

/-- `startsList pat l` : `pat` is an initial segment of `l` (JS `startsWith` on char lists). -/
def startsList : List Char → List Char → Bool
  | [], _ => true
  | _ :: _, [] => false
  | a :: as, b :: bs => a == b && startsList as bs

/-- `subList pat l` : `pat` occurs contiguously inside `l` (JS `String.includes` /
a literal-substring regex test, on char lists). -/
def subList (pat : List Char) : List Char → Bool
  | [] => startsList pat []
  | b :: bs => startsList pat (b :: bs) || subList pat bs

/-- JS `s.includes(pat)` (also how the source's literal-alternation regexes test a string). -/
def containsStr (s pat : String) : Bool := subList pat.data s.data

/-- JS `s.startsWith(pat)`. -/
def startsWithStr (s pat : String) : Bool := startsList pat.data s.data

/-- JS `s.toLowerCase()` (ASCII-faithful). -/
def toLowerStr (s : String) : String := ⟨s.data.map Char.toLower⟩

/-- Lexicographic (code-unit) order on char lists — the order JS string
comparison uses inside `Array.prototype.sort()`. -/
def charsLe : List Char → List Char → Bool
  | [], _ => true
  | _ :: _, [] => false
  | a :: as, b :: bs =>
    if a < b then true
    else if a = b then charsLe as bs
    else false

/-! ### Domain Classifier — `classifyDomain` in backend/services/geminiService.js

Each rule's regex in the source is an alternation of string literals (dots
escaped), so a rule test is "one of these substrings occurs in the hostname". -/

structure Classification where
  name : String
  category : String
  company : String
deriving DecidableEq, Repr

/-- The ordered rule table of `classifyDomain`: patterns (substring alternation)
paired with the classification returned on first match. -/
def classifyRules : List (List String × Classification) :=
  [ (["doubleclick", "googlesyndication", "googleadservices", "ads.google", "adservice.google"],
      ⟨"Google Ads", "Advertising", "Google"⟩),
    (["googletagmanager", "gtm"], ⟨"Google Tag Manager", "Tag Manager", "Google"⟩),
    (["google-analytics", "analytics.google"], ⟨"Google Analytics", "Analytics", "Google"⟩),
    (["gstatic", "googleapis"], ⟨"Google Static/Services", "CDN/Utility", "Google"⟩),
    ([".google."], ⟨"Google Services", "CDN/Utility", "Google"⟩),
    (["facebook", "fbcdn", "fbevents", "connect.facebook.net"], ⟨"Meta Pixel", "Advertising", "Meta"⟩),
    (["instagram.com"], ⟨"Instagram", "Social", "Meta"⟩),
    (["linkedin", "licdn", "bat.bing.com", "bingads"], ⟨"Microsoft Ads/LinkedIn", "Advertising", "Microsoft"⟩),
    (["twitter", "tiktok", "snapchat", "pinterest"], ⟨"Social Network", "Social", "Various"⟩),
    (["adnxs", "appnexus"], ⟨"AppNexus (Adnxs)", "Advertising", "Microsoft (Xandr)"⟩),
    (["rubiconproject"], ⟨"Rubicon Project (Magnite)", "Advertising", "Magnite"⟩),
    (["pubmatic"], ⟨"PubMatic", "Advertising", "PubMatic"⟩),
    (["criteo"], ⟨"Criteo", "Advertising", "Criteo"⟩),
    (["taboola"], ⟨"Taboola", "Advertising", "Taboola"⟩),
    (["outbrain"], ⟨"Outbrain", "Advertising", "Outbrain"⟩),
    (["openx"], ⟨"OpenX", "Advertising", "OpenX"⟩),
    (["adroll"], ⟨"AdRoll", "Advertising", "NextRoll"⟩),
    (["mixpanel"], ⟨"Mixpanel", "Analytics", "Mixpanel"⟩),
    (["segment.com"], ⟨"Segment", "Analytics", "Twilio Segment"⟩),
    (["amplitude"], ⟨"Amplitude", "Analytics", "Amplitude"⟩),
    (["hotjar"], ⟨"Hotjar", "Analytics", "Hotjar"⟩),
    (["fullstory"], ⟨"FullStory", "Analytics", "FullStory"⟩),
    (["logrocket"], ⟨"LogRocket", "Analytics", "LogRocket"⟩),
    (["optimizely"], ⟨"Optimizely", "Analytics", "Optimizely"⟩),
    (["mouseflow"], ⟨"Mouseflow", "Analytics", "Mouseflow"⟩),
    (["chartbeat"], ⟨"Chartbeat", "Analytics", "Chartbeat"⟩),
    (["clicktale"], ⟨"Clicktale", "Analytics", "Clicktale"⟩),
    (["mathtag"], ⟨"MediaMath (mathtag)", "Advertising", "MediaMath"⟩),
    (["doubleverify"], ⟨"DoubleVerify", "Advertising", "DoubleVerify"⟩),
    (["scorecardresearch.com"], ⟨"ScorecardResearch", "Advertising", "Comscore"⟩),
    (["comscore.com"], ⟨"Comscore", "Advertising", "Comscore"⟩),
    (["quantserve.com"], ⟨"Quantserve", "Advertising", "Quantcast"⟩),
    (["demdex.net"], ⟨"Adobe Experience Cloud (Demdex)", "Advertising", "Adobe"⟩),
    (["adsrvr.org"], ⟨"The Trade Desk", "Advertising", "The Trade Desk"⟩),
    (["eyeota.net"], ⟨"Eyeota", "Advertising", "Eyeota"⟩),
    (["bluekai.com"], ⟨"Oracle BlueKai", "Advertising", "Oracle"⟩),
    (["amazon-adsystem.com"], ⟨"Amazon Advertising", "Advertising", "Amazon"⟩),
    (["bouncex.net", "wunderkind.co"], ⟨"Wunderkind (BounceX)", "Advertising", "Wunderkind"⟩),
    (["onetag.com", "s-onetag.com"], ⟨"OneTag", "Advertising", "OneTag"⟩),
    (["permutive"], ⟨"Permutive", "Advertising", "Permutive"⟩),
    (["turner.com", "warnermediacdn.com"], ⟨"Turner/Warner CDN", "CDN/Utility", "Warner Bros. Discovery"⟩),
    (["collector.github.com"], ⟨"GitHub Telemetry", "Analytics", "GitHub"⟩),
    (["cloudflareinsights.com"], ⟨"Cloudflare Web Analytics", "Analytics", "Cloudflare"⟩),
    (["dubcdn.com"], ⟨"Dub CDN", "CDN/Utility", "Dub"⟩) ]

/-- Generic keyword heuristic applied when no vendor rule matches. -/
def genericTrackerKeywords : List String :=
  ["analytics", "track", "collect", "pixel", "beacon", "telemetry", "metrics"]

/-- `classifyDomain(lower)` of geminiService.js: first matching rule wins, then the
generic keyword heuristic, then `{hostname, Unknown, Unknown}`. Total and pure. -/
def classifyDomain (lower : String) : Classification :=
  match classifyRules.find? (fun r => r.1.any (fun pat => containsStr lower pat)) with
  | some r => r.2
  | none =>
    if genericTrackerKeywords.any (fun pat => containsStr lower pat) then
      ⟨"Tracker", "Analytics", "Unknown"⟩
    else
      ⟨lower, "Unknown", "Unknown"⟩

/-! ### Score Calculator — `calculatePrivacyScore`, `getGradeFromScore`, `getCategory`
in backend/controllers (part_001). -/

structure SummaryFields where
  whatTheyCollect : List String
  whoTheyShareWith : List String
  howLongTheyKeep : String
  keyRisks : List String
  trackerBreakdown : List String
deriving DecidableEq, Repr

/-- The summarizer's result object: `{ success, summary, note? }` (the parts the
score calculator and the cache-staleness check read). -/
structure AISummary where
  success : Bool
  summary : SummaryFields
  note : Option String
deriving DecidableEq, Repr

def positiveKeywords : List String :=
  ["encrypted", "no data sharing", "gdpr", "privacy focused",
   "user control", "opt-out", "delete data", "minimal collection"]

def negativeKeywords : List String :=
  ["sell data", "third party", "advertisers", "share data",
   "indefinitely", "partners", "affiliates", "marketing"]

/-- Number of keywords of `kws` occurring in `lowerPolicy` (one forEach hit each). -/
def keywordHits (kws : List String) (lowerPolicy : String) : Nat :=
  (kws.filter (fun w => containsStr lowerPolicy w)).length

def highRiskCompanies : List String := ["Meta", "Google", "Amazon"]

/-- `highRiskCount` of the source: entries of `whoTheyShareWith` that contain one of
the high-risk company names as a substring (counted per entry, duplicates included). -/
def highRiskEntryCount (shareWith : List String) : Nat :=
  (shareWith.filter (fun company =>
    highRiskCompanies.any (fun risk => containsStr company risk))).length

/-- The final adjustments of both score functions:
`if (score < 0) score = 0; if (score > 100) score = 100;`. -/
def clampScore (score : Int) : Int :=
  let s1 := if score < 0 then 0 else score
  if s1 > 100 then 100 else s1

/-- The additive total of `calculatePrivacyScore` before the final clamp. -/
def rawPrivacyScore (url : String) (simplifiedPolicy : Option String)
    (trackers : List String) (aiSummary : Option AISummary) : Int :=
  let trackerPoints : Int :=
    if trackers.length = 0 then 40
    else if trackers.length ≤ 2 then 35
    else if trackers.length ≤ 5 then 25
    else if trackers.length ≤ 10 then 15
    else if trackers.length ≤ 15 then 5
    else 0
  let httpsPoints : Int := if startsWithStr url "https://" then 10 else 0
  let lowerPolicy : String :=
    match simplifiedPolicy with
    | some p => toLowerStr p
    | none => ""
  let policyPoints : Int :=
    4 * (keywordHits positiveKeywords lowerPolicy : Int)
      - 3 * (keywordHits negativeKeywords lowerPolicy : Int)
  let aiPoints : Int :=
    match aiSummary with
    | some s =>
      if s.success then
        (if s.summary.keyRisks.length ≤ 2 then 15
         else if s.summary.keyRisks.length ≤ 4 then 10
         else 5)
          - min ((highRiskEntryCount s.summary.whoTheyShareWith : Int) * 3) 15
      else 0
    | none => 0
  trackerPoints + httpsPoints + policyPoints + aiPoints

/-- `calculatePrivacyScore({url, simplifiedPolicy, trackers, aiSummary})`. -/
def calculatePrivacyScore (url : String) (simplifiedPolicy : Option String)
    (trackers : List String) (aiSummary : Option AISummary) : Int :=
  clampScore (rawPrivacyScore url simplifiedPolicy trackers aiSummary)

/-- `getGradeFromScore` of the backend controller. -/
def getGradeFromScore (score : Int) : String :=
  if score ≥ 95 then "A+"
  else if score ≥ 90 then "A"
  else if score ≥ 85 then "A-"
  else if score ≥ 80 then "B+"
  else if score ≥ 75 then "B"
  else if score ≥ 70 then "B-"
  else if score ≥ 65 then "C+"
  else if score ≥ 60 then "C"
  else if score ≥ 55 then "C-"
  else if score ≥ 50 then "D+"
  else if score ≥ 45 then "D"
  else if score ≥ 40 then "D-"
  else "F"

/-- `getCategory` of the backend controller. -/
def getCategory (score : Int) : String :=
  if score ≥ 80 then "Excellent"
  else if score ≥ 65 then "Good"
  else if score ≥ 50 then "Moderate"
  else if score ≥ 35 then "Poor"
  else "Very Poor"

/-! ### Client-side scoring variant — frontend/src/utils/scoring.js -/

namespace Frontend

/-- The additive total of `calculateDynamicPrivacyScore` before the final clamp
(the "more lenient" client-side tier and weight tables). -/
def rawDynamicScore (url : String) (simplifiedPolicy : Option String)
    (unblockedTrackersCount : Nat) (aiSummary : Option AISummary) : Int :=
  let trackerPoints : Int :=
    if unblockedTrackersCount = 0 then 70
    else if unblockedTrackersCount ≤ 2 then 60
    else if unblockedTrackersCount ≤ 5 then 45
    else if unblockedTrackersCount ≤ 10 then 30
    else if unblockedTrackersCount ≤ 15 then 15
    else 0
  let httpsPoints : Int := if startsWithStr url "https://" then 10 else 0
  let lowerPolicy : String :=
    match simplifiedPolicy with
    | some p => toLowerStr p
    | none => ""
  let policyPoints : Int :=
    3 * (keywordHits positiveKeywords lowerPolicy : Int)
      - 2 * (keywordHits negativeKeywords lowerPolicy : Int)
  let aiPoints : Int :=
    match aiSummary with
    | some s =>
      if s.success then
        (if s.summary.keyRisks.length ≤ 2 then 12
         else if s.summary.keyRisks.length ≤ 4 then 8
         else 4)
          - min ((highRiskEntryCount s.summary.whoTheyShareWith : Int) * 2) 10
      else 0
    | none => 0
  trackerPoints + httpsPoints + policyPoints + aiPoints

/-- `calculateDynamicPrivacyScore({initialSiteData, unblockedTrackersCount})`; the
final `Math.round` is the identity because every contribution is an integer. -/
def calculateDynamicPrivacyScore (url : String) (simplifiedPolicy : Option String)
    (unblockedTrackersCount : Nat) (aiSummary : Option AISummary) : Int :=
  clampScore (rawDynamicScore url simplifiedPolicy unblockedTrackersCount aiSummary)

/-- Frontend `getGradeFromScore` ("more lenient grade boundaries"). -/
def getGradeFromScore (score : Int) : String :=
  if score ≥ 97 then "A+"
  else if score ≥ 93 then "A"
  else if score ≥ 90 then "A-"
  else if score ≥ 87 then "B+"
  else if score ≥ 83 then "B"
  else if score ≥ 80 then "B-"
  else if score ≥ 77 then "C+"
  else if score ≥ 73 then "C"
  else if score ≥ 70 then "C-"
  else if score ≥ 65 then "D+"
  else if score ≥ 60 then "D"
  else if score ≥ 55 then "D-"
  else "F"

end Frontend

/-! ### Summary Synthesizer — backend/services/geminiService.js -/

/-- `new URL(url).hostname` for the scheme-prefixed URLs this pipeline handles:
the text after `://` up to the first `/`, `:`, `?` or `#`. -/
def hostStart : List Char → List Char
  | [] => []
  | ':' :: '/' :: '/' :: rest => rest
  | _ :: rest => hostStart rest

def urlHostname (url : String) : String :=
  ⟨(hostStart url.data).takeWhile (fun c => !(c = '/' || c = ':' || c = '?' || c = '#'))⟩

/-- JS `Array.prototype.sort()` on an array of strings: stable sort in ascending
lexicographic (code-unit) order. -/
def jsSortStrings (l : List String) : List String :=
  List.insertionSort (fun a b => charsLe a.data b.data = true) l

/-- `generateAIPrivacySummary` computes its memoization key from the url and the
tracker list; `trackers.sort()` sorts the caller's array **in place**, so after any
call the caller's array holds this value. -/
def summarizeTrackersAfter (trackers : List String) : List String :=
  jsSortStrings trackers

/-- The memoization key `` `${url}_${trackers.sort().join(',')}` ``. -/
def summarizeCacheKey (url : String) (trackers : List String) : String :=
  url ++ "_" ++ String.intercalate "," (jsSortStrings trackers)

/-- `createFallbackSummary(trackers, url)`: the deterministic rule-based summary. -/
def createFallbackSummary (trackers : List String) (url : String) : SummaryFields :=
  let domain := urlHostname url
  let googleTrackers := trackers.filter (fun t => containsStr t "google")
  let facebookTrackers := trackers.filter (fun t => containsStr t "facebook")
  let adTrackers := trackers.filter (fun t =>
    containsStr t "ads" || containsStr t "doubleclick" || containsStr t "adnxs")
  let analyticsTrackers := trackers.filter (fun t =>
    containsStr t "analytics" || containsStr t "mixpanel" || containsStr t "hotjar")
  let companies :=
    (if googleTrackers.length > 0 then ["Google"] else [])
      ++ (if facebookTrackers.length > 0 then ["Meta/Facebook"] else [])
      ++ (if adTrackers.length > 0 then ["Advertising Networks"] else [])
      ++ (if analyticsTrackers.length > 0 then ["Analytics Providers"] else [])
  { whatTheyCollect :=
      ["Browsing behavior and page views",
       "Device and browser information",
       "IP address and location data"]
        ++ (if trackers.length > 5 then ["User interactions and clicks"] else [])
        ++ (if trackers.length > 10 then ["Cross-site tracking data"] else [])
    whoTheyShareWith := if companies.length > 0 then companies else ["Third-party partners"]
    howLongTheyKeep :=
      if trackers.length > 8 then "Up to 2 years or indefinitely" else "Varies by service"
    keyRisks :=
      ["Your browsing on " ++ domain ++ " may be tracked across other websites"]
        ++ (if trackers.length > 5 then ["Detailed behavioral profiling for advertising"] else [])
        ++ (if trackers.length > 10 then ["Extensive data sharing with multiple partners"] else [])
    trackerBreakdown :=
      (trackers.take 4).map (fun tracker =>
        if containsStr tracker "google" then
          tracker ++ ": Google\x27s tracking service for analytics and advertising"
        else if containsStr tracker "facebook" then
          tracker ++ ": Meta\x27s social media and advertising tracker"
        else if containsStr tracker "doubleclick" then
          tracker ++ ": Google\x27s advertising network for targeted ads"
        else
          tracker ++ ": Third-party tracking and analytics service") }

/-- The payload returned (and cached) when no Gemini API key is configured:
`success:false` with empty structured fields. -/
def summaryOnMissingKey : AISummary :=
  { success := false
    summary :=
      { whatTheyCollect := []
        whoTheyShareWith := []
        howLongTheyKeep := "Information not available"
        keyRisks := []
        trackerBreakdown := [] }
    note := some "AI analysis unavailable - API key missing" }

/-- The payload returned when the external summarization call raises: the outer
catch of `generateAIPrivacySummary` degrades to the deterministic fallback summary
with the original error message preserved in `note`. -/
def summaryOnServiceFailure (trackers : List String) (url : String)
    (errMsg : String) : AISummary :=
  { success := false
    summary := createFallbackSummary trackers url
    note := some ("AI analysis failed: " ++ errMsg) }

/-! ### Request Observer / Crawler — backend/utility/trackerService.js (`detectTrackers`)

The browser interaction is a collaborator; the control flow of `detectTrackers`
is modelled over the possible navigation outcomes.  `observed` is the set of
tracker hostnames collected by the request hook before the run ended. -/

inductive NavOutcome where
  /-- Navigation and interaction completed normally. -/
  | ok : NavOutcome
  /-- `page.goto` (or a wait) threw a `TimeoutError`. -/
  | timeout : NavOutcome
  /-- Any other error after the browser was launched. -/
  | navError (msg : String) : NavOutcome
  /-- `puppeteer.launch` itself threw: no browser session ever existed. -/
  | launchFailure (msg : String) : NavOutcome
deriving DecidableEq, Repr

structure DetectResult where
  success : Bool
  detectedTrackers : List String
  error : Option String
deriving DecidableEq, Repr

/-- Whether a browser session was opened and whether it was closed by the end of
the call (the `finally` block closes it whenever it is non-null). -/
structure SessionTrace where
  opened : Bool
  closed : Bool
deriving DecidableEq, Repr

/-- `detectTrackers`: a `TimeoutError` is non-fatal (success with the trackers
observed so far, deduplicated by the `Set` and sorted); any other error returns
`{success:false, error, detectedTrackers:[]}`; the `finally` block closes the
browser on every path on which it was launched. -/
def detectTrackersRun (outcome : NavOutcome) (observed : List String) :
    DetectResult × SessionTrace :=
  match outcome with
  | .launchFailure msg => (⟨false, [], some msg⟩, ⟨false, false⟩)
  | .navError msg => (⟨false, [], some msg⟩, ⟨true, true⟩)
  | .timeout => (⟨true, jsSortStrings observed.eraseDups, none⟩, ⟨true, true⟩)
  | .ok => (⟨true, jsSortStrings observed.eraseDups, none⟩, ⟨true, true⟩)

/-! ### Analysis Orchestrator — `analyzeSite` in the backend controller (part_001) -/

/-- The persisted "Site" record. -/
structure StoredSite where
  url : String
  score : Int
  grade : String
  category : String
  trackers : List String
  simplifiedPolicy : Option String
  aiSummary : Option AISummary
  /-- `lastAnalyzed` timestamp in ms; `none` models a record missing the field
  (the controller checks `existingSite.lastAnalyzed` before using it). -/
  lastAnalyzed : Option Int
deriving DecidableEq, Repr

/-- The request body of `POST /analyze`.  The frontend sends `forceRefresh`
(App.jsx builds `{url, forceRefresh: !isAutoDetected}`); the controller
destructures only `{url, simplifiedPolicy}`. -/
structure AnalyzeRequest where
  url : String
  simplifiedPolicy : Option String
  forceRefresh : Bool
deriving DecidableEq, Repr

/-- The collaborators of one `analyzeSite` invocation: database connectivity, the
stored record for the URL, the clock, and the outcomes of the crawler and the
summarizer. -/
structure AnalyzeEnv where
  dbConnected : Bool
  existing : Option StoredSite
  now : Int
  crawl : DetectResult
  ai : AISummary
deriving DecidableEq, Repr

def successfulCacheDuration : Int := 48 * 60 * 60 * 1000

def failedCacheDuration : Int := 30 * 60 * 1000

/-- The staleness check: 48h TTL when the stored summary succeeded, 30min TTL
when it failed or is absent. -/
def isCacheValid (site : StoredSite) (now last : Int) : Bool :=
  match site.aiSummary with
  | some s =>
    if s.success then decide (now - last < successfulCacheDuration)
    else decide (now - last < failedCacheDuration)
  | none => decide (now - last < failedCacheDuration)

inductive AnalyzeOutcome where
  /-- HTTP 200, "Site data retrieved from cache": the stored record is returned unchanged. -/
  | cacheHit (site : StoredSite)
  /-- HTTP 201, "Site analyzed successfully": a fresh record, upserted when the
  database is available, with a non-fatal warning otherwise. -/
  | analyzed (site : StoredSite) (dbWarning : Option String)
  /-- HTTP 500: tracker detection failed. -/
  | failed (error : String)
deriving DecidableEq, Repr

/-- The "cache is missed or stale" tail of `analyzeSite`: crawl, summarize, score,
assemble and upsert the new record. -/
def freshAnalysis (req : AnalyzeRequest) (env : AnalyzeEnv) : AnalyzeOutcome :=
  if env.crawl.success then
    let detectedTrackers := env.crawl.detectedTrackers
    let aiSummary := env.ai
    let score := calculatePrivacyScore req.url req.simplifiedPolicy detectedTrackers (some aiSummary)
    let site : StoredSite :=
      { url := req.url
        score := score
        grade := getGradeFromScore score
        category := getCategory score
        trackers := detectedTrackers
        simplifiedPolicy := req.simplifiedPolicy
        aiSummary := some aiSummary
        lastAnalyzed := some env.now }
    .analyzed site (if env.dbConnected then none else some "Database not connected")
  else
    .failed (env.crawl.error.getD "")

/-- `analyzeSite(req, res)`: serve the stored record when the database is up, a
record with a `lastAnalyzed` exists and the staleness check passes; otherwise run
a full analysis.  Faithful to the source, `req.forceRefresh` is never read. -/
def analyzeSite (req : AnalyzeRequest) (env : AnalyzeEnv) : AnalyzeOutcome :=
  let hit : Option StoredSite :=
    if env.dbConnected then
      match env.existing with
      | some site =>
        match site.lastAnalyzed with
        | some last => if isCacheValid site env.now last then some site else none
        | none => none
      | none => none
    else none
  match hit with
  | some site => .cacheHit site
  | none => freshAnalysis req env

/-! ### Sentence-aware truncation — `sentenceAwareTruncate` in geminiService.js

The source splits on `/(?<=[.!?])\s+/` (a whitespace run preceded by sentence
punctuation), greedily accumulates whole trimmed sentences until the word budget
is reached, joins them with single spaces, and falls back to a hard word cut with
an ellipsis only when nothing was accumulated. -/

/-- JS `\s` for this code's inputs. -/
def isWs (c : Char) : Bool := c.isWhitespace

def isPunctC (c : Char) : Bool := c = '.' || c = '!' || c = '?'

def headIsWs : List Char → Bool
  | [] => false
  | c :: _ => isWs c

/-- `clean.split(/(?<=[.!?])\s+/)`: cut after a punctuation char that is followed
by whitespace, consuming the whitespace run.  `acc` holds the reversed current
chunk. -/
def splitSentencesAux (acc : List Char) : List Char → List (List Char)
  | [] => [acc.reverse]
  | c :: rest =>
    if isPunctC c && headIsWs rest then
      (acc.reverse ++ [c]) :: splitSentencesAux [] (rest.dropWhile isWs)
    else
      splitSentencesAux (c :: acc) rest
termination_by l => l.length
decreasing_by
  · exact Nat.lt_succ_of_le (List.Sublist.length_le (List.dropWhile_sublist _))
  · exact Nat.lt_succ_self _

def splitSentences (l : List Char) : List (List Char) :=
  splitSentencesAux [] l

/-- JS `String.prototype.trim()` on char lists. -/
def trimChars (l : List Char) : List Char :=
  ((l.dropWhile isWs).reverse.dropWhile isWs).reverse

/-- JS `s.split(/\s+/).filter(Boolean)`: the maximal whitespace-free runs. -/
def wordsOf : List Char → List (List Char)
  | [] => []
  | c :: rest =>
    if isWs c then wordsOf rest
    else (c :: rest.takeWhile (fun x => !isWs x)) :: wordsOf (rest.dropWhile (fun x => !isWs x))
termination_by l => l.length
decreasing_by
  · exact Nat.lt_succ_self _
  · exact Nat.lt_succ_of_le (List.Sublist.length_le (List.dropWhile_sublist _))

def wordCount (l : List Char) : Nat := (wordsOf l).length

/-- The accumulation loop: skip whitespace-only sentences, push the trimmed
sentence, add its word count, and break once the running count reaches the
target (`count += w.length; if (count >= targetWords) break`). -/
def accumulate (target : Nat) : List (List Char) → Nat → List (List Char)
  | [], _ => []
  | s :: rest, count =>
    let st := trimChars s
    let w := wordCount st
    if w = 0 then accumulate target rest count
    else if target ≤ count + w then [st]
    else st :: accumulate target rest (count + w)

/-- `out.join(' ')`. -/
def joinSp : List (List Char) → List Char
  | [] => []
  | s :: rest =>
    match rest with
    | [] => s
    | _ :: _ => s ++ ' ' :: joinSp rest

/-- `sentenceAwareTruncate(text, targetWords)`.  In order: the falsy-input guard
(a `String` is only falsy when empty), `clean = text.trim()` with its own guard,
the sentence accumulation with `if (out.length > 0) return out.join(' ')`, and
the hard word-count cut with an ellipsis (`clean` is trimmed and non-empty
there, so `clean.split(/\s+/)` has no empty segments and coincides with
`wordsOf`). -/
def sentenceAwareTruncate (text : String) (targetWords : Nat) : String :=
  if text.data = [] then text
  else if trimChars text.data = [] then ⟨trimChars text.data⟩
  else if 0 < (accumulate targetWords (splitSentences (trimChars text.data)) 0).length then
    ⟨joinSp (accumulate targetWords (splitSentences (trimChars text.data)) 0)⟩
  else if (wordsOf (trimChars text.data)).length ≤ targetWords then ⟨trimChars text.data⟩
  else ⟨joinSp ((wordsOf (trimChars text.data)).take targetWords) ++ ['…']⟩

/-! Auxiliary predicates for reasoning about the truncation. -/

/-- The first char, if any, is not whitespace. -/
def headNotWsL (l : List Char) : Prop := ∀ h, l.head? = some h → isWs h = false

/-- The last char, if any, is not whitespace. -/
def lastNotWsL (l : List Char) : Prop := ∀ h, l.getLast? = some h → isWs h = false

/-- No sentence-punctuation char immediately followed by whitespace occurs inside. -/
def noPW : List Char → Bool
  | [] => true
  | [_] => true
  | c :: d :: rest => !(isPunctC c && isWs d) && noPW (d :: rest)

/-- The chunk ends with a sentence-punctuation char. -/
def EndsPunct (c : List Char) : Prop := ∃ b p, c = b ++ [p] ∧ isPunctC p = true

/-- All chunks except possibly the last end with sentence punctuation. -/
def ChainPunct : List (List Char) → Prop
  | [] => True
  | [_] => True
  | c :: rest => EndsPunct c ∧ ChainPunct rest

/-! ### Spec-side reading used for the refinement check of the high-risk penalty -/

/-- Following the spec's words ("3 points per **distinct** high-risk company found
among `whoTheyShareWith`"): the distinct members of the high-risk list that occur
in some entry.  To be compared with the source's per-entry count. -/
def distinctHighRiskCompanies (shareWith : List String) : List String :=
  highRiskCompanies.filter (fun risk =>
    shareWith.any (fun company => containsStr company risk))

/-- The penalty as the spec sentence states it: 3 per distinct high-risk company,
capped at 15. -/
def specDistinctHighRiskPenalty (shareWith : List String) : Int :=
  min ((distinctHighRiskCompanies shareWith).length * 3 : Int) 15

/-! ### Concrete fixtures for the orchestrator claims -/

/-- A stored record whose summary succeeded, analyzed at time 0. -/
def siteSucc : StoredSite :=
  { url := "https://example.com"
    score := 45
    grade := "D"
    category := "Poor"
    trackers := ["doubleclick.net"]
    simplifiedPolicy := none
    aiSummary := some ⟨true, ⟨[], ["Google"], "x", [], []⟩, none⟩
    lastAnalyzed := some 0 }

/-- A stored record with no AI summary (treated like a failed one), analyzed at time 0. -/
def siteNoSummary : StoredSite :=
  { url := "https://example.com"
    score := 45
    grade := "D"
    category := "Poor"
    trackers := []
    simplifiedPolicy := none
    aiSummary := none
    lastAnalyzed := some 0 }

/-- Environment: database up, `siteSucc` stored, 1 second after its analysis. -/
def envFreshSucc : AnalyzeEnv :=
  { dbConnected := true
    existing := some siteSucc
    now := 1000
    crawl := ⟨true, [], none⟩
    ai := ⟨false, ⟨[], [], "x", [], []⟩, none⟩ }

/-- Environment: database up, `siteNoSummary` stored, exactly 30 minutes after its
analysis (the failed-summary TTL boundary). -/
def envStaleFailed : AnalyzeEnv :=
  { dbConnected := true
    existing := some siteNoSummary
    now := failedCacheDuration
    crawl := ⟨true, [], none⟩
    ai := ⟨false, ⟨[], [], "x", [], []⟩, none⟩ }

/-! ## Helper lemmas -/

theorem startsList_iff (pat : List Char) : ∀ l, startsList pat l = true ↔ pat <+: l := by
  induction pat with
  | nil => intro l; simp [startsList]
  | cons a as ih =>
    intro l
    cases l with
    | nil => simp [startsList]
    | cons b bs =>
      simp only [startsList, Bool.and_eq_true, beq_iff_eq, ih, List.cons_prefix_cons]

theorem subList_iff (pat : List Char) : ∀ l, subList pat l = true ↔ pat <:+: l := by
  intro l
  induction l with
  | nil =>
    simp only [subList, startsList_iff, List.prefix_nil, List.infix_nil]
  | cons b bs ih =>
    simp only [subList, Bool.or_eq_true, startsList_iff, ih, List.infix_cons_iff]

/-- A summary with `success:false` contributes nothing to the score. -/
theorem score_ignores_failed_summary (url : String) (p : Option String)
    (t : List String) (s : AISummary) (h : s.success = false) :
    calculatePrivacyScore url p t (some s) = calculatePrivacyScore url p t none := by
  simp [calculatePrivacyScore, rawPrivacyScore, h]

theorem clampScore_nonneg (x : Int) : 0 ≤ clampScore x := by
  simp only [clampScore]; split_ifs <;> omega

theorem clampScore_le_100 (x : Int) : clampScore x ≤ 100 := by
  simp only [clampScore]; split_ifs <;> omega

theorem clampScore_of_neg (x : Int) (h : x < 0) : clampScore x = 0 := by
  simp only [clampScore]; split_ifs <;> omega

theorem clampScore_of_gt_100 (x : Int) (h : 100 < x) : clampScore x = 100 := by
  simp only [clampScore]; split_ifs <;> omega

theorem charsLe_cons (x y : Char) (as bs : List Char) :
    charsLe (x :: as) (y :: bs) = true ↔ (x < y ∨ (x = y ∧ charsLe as bs = true)) := by
  simp only [charsLe]
  split_ifs with h1 h2
  · simp [h1]
  · simp [h1, h2]
  · simp [h1, h2]

theorem charsLe_total : ∀ a b : List Char, charsLe a b = true ∨ charsLe b a = true := by
  intro a
  induction a with
  | nil => intro b; left; rfl
  | cons x as ih =>
    intro b
    cases b with
    | nil => right; rfl
    | cons y bs =>
      rcases lt_trichotomy x y with h | h | h
      · left; rw [charsLe_cons]; exact Or.inl h
      · subst h
        rcases ih bs with h2 | h2
        · left; rw [charsLe_cons]; exact Or.inr ⟨rfl, h2⟩
        · right; rw [charsLe_cons]; exact Or.inr ⟨rfl, h2⟩
      · right; rw [charsLe_cons]; exact Or.inl h

theorem charsLe_trans : ∀ a b c : List Char,
    charsLe a b = true → charsLe b c = true → charsLe a c = true := by
  intro a
  induction a with
  | nil => intros; rfl
  | cons x as ih =>
    intro b c h1 h2
    cases b with
    | nil => simp [charsLe] at h1
    | cons y bs =>
      cases c with
      | nil => simp [charsLe] at h2
      | cons z cs =>
        rw [charsLe_cons] at h1 h2 ⊢
        rcases h1 with h1 | ⟨h1, h1'⟩
        · rcases h2 with h2 | ⟨h2, h2'⟩
          · exact Or.inl (lt_trans h1 h2)
          · exact Or.inl (h2 ▸ h1)
        · rcases h2 with h2 | ⟨h2, h2'⟩
          · exact Or.inl (h1 ▸ h2)
          · exact Or.inr ⟨h1.trans h2, ih bs cs h1' h2'⟩

/-! ### Lemmas for the truncation idempotence (C8) -/

theorem punct_not_ws {x : Char} (h : isPunctC x = true) : isWs x = false := by
  simp only [isPunctC, Bool.or_eq_true, decide_eq_true_eq] at h
  rcases h with (h | h) | h <;> subst h <;> decide

theorem split_aux_nil (acc : List Char) : splitSentencesAux acc [] = [acc.reverse] := by
  simp [splitSentencesAux]

theorem split_aux_cons (acc : List Char) (c : Char) (rest : List Char) :
    splitSentencesAux acc (c :: rest) =
      if isPunctC c && headIsWs rest then
        (acc.reverse ++ [c]) :: splitSentencesAux [] (rest.dropWhile isWs)
      else splitSentencesAux (c :: acc) rest := by
  simp [splitSentencesAux]

theorem split_aux_ne_nil : ∀ (acc l : List Char), splitSentencesAux acc l ≠ [] := by
  intro acc l
  induction acc, l using splitSentencesAux.induct with
  | case1 acc => simp [split_aux_nil]
  | case2 acc c rest h ih => simp [split_aux_cons, h]
  | case3 acc c rest h ih => rw [split_aux_cons, if_neg h]; exact ih

theorem dropWhile_isWs_eq_self (l : List Char) (h : headNotWsL l) :
    l.dropWhile isWs = l := by
  cases l with
  | nil => rfl
  | cons a t =>
    rw [List.dropWhile_cons_of_neg]
    simp [h a rfl]

theorem headNotWsL_dropWhile (l : List Char) : headNotWsL (l.dropWhile isWs) := by
  induction l with
  | nil => intro h hh; simp at hh
  | cons a t ih =>
    rw [List.dropWhile_cons]
    split_ifs with ha
    · exact ih
    · intro h hh
      cases hh
      simpa using ha

theorem getLast?_dropWhile_isWs (l : List Char) (h : l.dropWhile isWs ≠ []) :
    (l.dropWhile isWs).getLast? = l.getLast? := by
  induction l with
  | nil => simp at h
  | cons a t ih =>
    by_cases ha : isWs a = true
    · rw [List.dropWhile_cons_of_pos ha] at h ⊢
      rw [ih h]
      cases t with
      | nil => simp at h
      | cons b t' => rw [List.getLast?_cons_cons]
    · rw [List.dropWhile_cons_of_neg ha]

theorem getLast?_append_cons (a : List Char) (c : Char) (r : List Char) (x : Char)
    (hx : r.getLast? = some x) : (a ++ c :: r).getLast? = some x := by
  cases r with
  | nil => simp at hx
  | cons b r' =>
    rw [List.getLast?_append, List.getLast?_cons_cons, hx]
    rfl

theorem trimChars_head_last (l : List Char) :
    headNotWsL (trimChars l) ∧ lastNotWsL (trimChars l) := by
  unfold trimChars
  constructor
  · intro h hh
    rw [List.head?_reverse] at hh
    have hne : (l.dropWhile isWs).reverse.dropWhile isWs ≠ [] := by
      intro hnil
      rw [hnil] at hh
      simp at hh
    rw [getLast?_dropWhile_isWs _ hne, List.getLast?_reverse] at hh
    exact headNotWsL_dropWhile l h hh
  · intro h hh
    rw [List.getLast?_reverse] at hh
    exact headNotWsL_dropWhile (l.dropWhile isWs).reverse h hh

theorem trim_eq_self (l : List Char) (hh : headNotWsL l) (hl : lastNotWsL l) :
    trimChars l = l := by
  unfold trimChars
  rw [dropWhile_isWs_eq_self l hh]
  rw [dropWhile_isWs_eq_self l.reverse (by
    intro h hhead
    rw [List.head?_reverse] at hhead
    exact hl h hhead)]
  exact List.reverse_reverse l

theorem noPW_cons_tail (c : Char) (r : List Char) (h : noPW (c :: r) = true) :
    noPW r = true := by
  cases r with
  | nil => rfl
  | cons d r' =>
    simp only [noPW, Bool.and_eq_true] at h
    exact h.2

theorem noPW_pair (c d : Char) (r : List Char) (h : noPW (c :: d :: r) = true) :
    (isPunctC c && isWs d) = false := by
  simp only [noPW, Bool.and_eq_true, Bool.not_eq_true'] at h
  exact h.1

theorem noPW_append_single (x : Char) :
    ∀ (a : List Char), noPW a = true →
    (∀ q, a.getLast? = some q → (isPunctC q && isWs x) = false) →
    noPW (a ++ [x]) = true := by
  intro a
  induction a with
  | nil => intro _ _; rfl
  | cons c a' ih =>
    intro h hpair
    cases a' with
    | nil =>
      have hp : (isPunctC c && isWs x) = false := hpair c rfl
      show (!(isPunctC c && isWs x) && noPW [x]) = true
      rw [hp]
      rfl
    | cons d a'' =>
      show (!(isPunctC c && isWs d) && noPW ((d :: a'') ++ [x])) = true
      rw [noPW_pair c d a'' h]
      rw [ih (noPW_cons_tail c _ h) (fun q hq => hpair q (by rw [List.getLast?_cons_cons]; exact hq))]
      rfl

theorem noPW_elim_left : ∀ (a b : List Char), noPW (a ++ b) = true → noPW a = true := by
  intro a
  induction a with
  | nil => intro _ _; rfl
  | cons c a' ih =>
    intro b h
    cases a' with
    | nil => rfl
    | cons d a'' =>
      have h1 : (isPunctC c && isWs d) = false := noPW_pair c d (a'' ++ b) h
      have h2 : noPW ((d :: a'') ++ b) = true := noPW_cons_tail c _ h
      show (!(isPunctC c && isWs d) && noPW (d :: a'')) = true
      rw [h1, ih b h2]
      rfl

theorem split_walk : ∀ (body acc rest : List Char),
    noPW body = true →
    (∀ p w, body.getLast? = some p → rest.head? = some w → (isPunctC p && isWs w) = false) →
    splitSentencesAux acc (body ++ rest) = splitSentencesAux (body.reverse ++ acc) rest := by
  intro body
  induction body with
  | nil => intro acc rest _ _; simp
  | cons c body' ih =>
    intro acc rest hpw hbound
    have hcondF : (isPunctC c && headIsWs (body' ++ rest)) = false := by
      cases body' with
      | nil =>
        cases rest with
        | nil => simp [headIsWs]
        | cons w ws =>
          exact hbound c w rfl rfl
      | cons d b'' =>
        exact noPW_pair c d b'' hpw
    have hb : ∀ p w, body'.getLast? = some p → rest.head? = some w →
        (isPunctC p && isWs w) = false := by
      intro p w hp hw
      cases body' with
      | nil => simp at hp
      | cons d b'' =>
        exact hbound p w (by rw [List.getLast?_cons_cons]; exact hp) hw
    rw [show (c :: body') ++ rest = c :: (body' ++ rest) from rfl]
    rw [split_aux_cons, if_neg (by simp [hcondF])]
    rw [ih (c :: acc) rest (noPW_cons_tail c _ hpw) hb]
    congr 1
    simp

theorem split_single_chunk (c : List Char) (h : noPW c = true) :
    splitSentencesAux [] c = [c] := by
  have hw := split_walk c [] [] h (by intro p w _ hw; simp at hw)
  simp only [List.append_nil] at hw
  rw [hw, split_aux_nil, List.reverse_reverse]

theorem split_chunk_step (body : List Char) (p : Char) (next : List Char)
    (hpw : noPW (body ++ [p]) = true) (hp : isPunctC p = true)
    (hnext : headNotWsL next) :
    splitSentencesAux [] ((body ++ [p]) ++ ' ' :: next) =
      (body ++ [p]) :: splitSentencesAux [] next := by
  have hbody : noPW body = true := noPW_elim_left body [p] hpw
  have hpair : ∀ q w, body.getLast? = some q → (p :: ' ' :: next).head? = some w →
      (isPunctC q && isWs w) = false := by
    intro q w hq hw
    cases hw
    simp [punct_not_ws hp]
  rw [List.append_assoc]
  simp only [List.singleton_append]
  rw [split_walk body [] (p :: ' ' :: next) hbody hpair]
  rw [List.append_nil, split_aux_cons]
  rw [if_pos (by rw [hp]; rfl)]
  rw [List.reverse_reverse]
  rw [List.dropWhile_cons_of_pos (by decide)]
  rw [dropWhile_isWs_eq_self next hnext]

theorem joinSp_cons (s : List Char) (a : List Char) (r : List (List Char)) :
    joinSp (s :: a :: r) = s ++ ' ' :: joinSp (a :: r) := rfl

theorem joinSp_ne_nil (cs : List (List Char)) (hne : cs ≠ [])
    (hall : ∀ c ∈ cs, c ≠ []) : joinSp cs ≠ [] := by
  cases cs with
  | nil => exact absurd rfl hne
  | cons s r =>
    cases r with
    | nil => exact hall s (List.mem_cons_self s [])
    | cons a b =>
      rw [joinSp_cons]
      have := hall s (List.mem_cons_self s _)
      cases s with
      | nil => exact absurd rfl this
      | cons x xs => simp

theorem headNotWsL_joinSp (cs : List (List Char))
    (hall : ∀ c ∈ cs, c ≠ [] ∧ headNotWsL c) : headNotWsL (joinSp cs) := by
  cases cs with
  | nil => intro h hh; simp [joinSp] at hh
  | cons s r =>
    have hs := hall s (List.mem_cons_self s _)
    cases r with
    | nil => exact hs.2
    | cons a b =>
      rw [joinSp_cons]
      intro h hh
      rw [List.head?_append] at hh
      cases s with
      | nil => exact absurd rfl hs.1
      | cons x xs =>
        simp only [List.head?_cons, Option.or_some] at hh
        exact hs.2 h (by rw [List.head?_cons]; exact hh ▸ rfl)

theorem lastNotWsL_joinSp (cs : List (List Char))
    (hall : ∀ c ∈ cs, c ≠ [] ∧ lastNotWsL c) : lastNotWsL (joinSp cs) := by
  induction cs with
  | nil => intro h hh; simp [joinSp] at hh
  | cons s r ih =>
    have hs := hall s (List.mem_cons_self s _)
    cases r with
    | nil => exact hs.2
    | cons a b =>
      rw [joinSp_cons]
      intro h hh
      have hJ : joinSp (a :: b) ≠ [] :=
        joinSp_ne_nil (a :: b) (by simp) (fun c hc => (hall c (List.mem_cons_of_mem s hc)).1)
      have htail : (' ' :: joinSp (a :: b)).getLast? = (joinSp (a :: b)).getLast? := by
        cases hJeq : joinSp (a :: b) with
        | nil => exact absurd hJeq hJ
        | cons j js => rw [List.getLast?_cons_cons]
      rw [List.getLast?_append] at hh
      rw [htail] at hh
      have hsome : ∃ x, (joinSp (a :: b)).getLast? = some x := by
        rcases List.exists_cons_of_ne_nil hJ with ⟨j, js, hjs⟩
        rw [hjs]
        exact ⟨(j :: js).getLast (by simp), List.getLast?_eq_getLast _ _⟩
      rcases hsome with ⟨x, hx⟩
      rw [hx] at hh
      simp only [Option.or_some] at hh
      exact ih (fun c hc => hall c (List.mem_cons_of_mem s hc)) h (hx.trans hh)

theorem chainPunct_single (c : List Char) : ChainPunct [c] := trivial

theorem chainPunct_cons_of (c : List Char) (r : List (List Char))
    (h1 : EndsPunct c) (h2 : ChainPunct r) : ChainPunct (c :: r) := by
  cases r with
  | nil => exact trivial
  | cons a b => exact ⟨h1, h2⟩

theorem chainPunct_tail (c : List Char) (r : List (List Char))
    (h : ChainPunct (c :: r)) : ChainPunct r := by
  cases r with
  | nil => exact trivial
  | cons a b => exact h.2

theorem chainPunct_head (c : List Char) (r : List (List Char)) (hr : r ≠ [])
    (h : ChainPunct (c :: r)) : EndsPunct c := by
  cases r with
  | nil => exact absurd rfl hr
  | cons a b => exact h.1

theorem resplit : ∀ (cs : List (List Char)), cs ≠ [] →
    (∀ c ∈ cs, c ≠ [] ∧ headNotWsL c ∧ noPW c = true) →
    ChainPunct cs →
    splitSentences (joinSp cs) = cs := by
  intro cs
  induction cs with
  | nil => intro h; exact absurd rfl h
  | cons s r ih =>
    intro _ hall hchain
    have hs := hall s (List.mem_cons_self s _)
    cases r with
    | nil =>
      show splitSentencesAux [] (joinSp [s]) = [s]
      exact split_single_chunk s hs.2.2
    | cons a b =>
      rcases chainPunct_head s (a :: b) (by simp) hchain with ⟨body, p, hsplit, hp⟩
      show splitSentencesAux [] (joinSp (s :: a :: b)) = s :: (a :: b)
      rw [joinSp_cons, hsplit]
      rw [split_chunk_step body p (joinSp (a :: b))
        (hsplit ▸ hs.2.2) hp
        (headNotWsL_joinSp (a :: b) (fun c hc =>
          ⟨(hall c (List.mem_cons_of_mem s hc)).1, (hall c (List.mem_cons_of_mem s hc)).2.1⟩))]
      rw [← hsplit]
      congr 1
      exact ih (by simp) (fun c hc => hall c (List.mem_cons_of_mem s hc))
        (chainPunct_tail s (a :: b) hchain)

theorem split_aux_props : ∀ (acc l : List Char),
    acc.reverse ++ l ≠ [] →
    headNotWsL (acc.reverse ++ l) →
    lastNotWsL (acc.reverse ++ l) →
    noPW acc.reverse = true →
    (∀ a w, acc.head? = some a → l.head? = some w → (isPunctC a && isWs w) = false) →
    (∀ c ∈ splitSentencesAux acc l, c ≠ [] ∧ headNotWsL c ∧ lastNotWsL c ∧ noPW c = true) ∧
    ChainPunct (splitSentencesAux acc l) := by
  intro acc l
  induction acc, l using splitSentencesAux.induct with
  | case1 acc =>
    intro hcomb hhead hlast hpw _
    rw [split_aux_nil]
    simp only [List.append_nil] at hcomb hhead hlast
    refine ⟨?_, chainPunct_single _⟩
    intro c hc
    rw [List.mem_singleton] at hc
    subst hc
    exact ⟨hcomb, hhead, hlast, hpw⟩
  | case2 acc c rest hcond ih =>
    intro hcomb hhead hlast hpw hbound
    have hcond' := hcond
    rw [Bool.and_eq_true] at hcond'
    obtain ⟨hc, hwrest⟩ := hcond'
    cases rest with
    | nil => simp [headIsWs] at hwrest
    | cons w ws =>
    obtain ⟨x, hx⟩ : ∃ x, (w :: ws).getLast? = some x :=
      ⟨(w :: ws).getLast (by simp), List.getLast?_eq_getLast _ _⟩
    have hxcomb : (acc.reverse ++ c :: w :: ws).getLast? = some x :=
      getLast?_append_cons acc.reverse c (w :: ws) x hx
    have hxnw : isWs x = false := hlast x hxcomb
    have hl'ne : (w :: ws).dropWhile isWs ≠ [] := by
      intro hnil
      rw [List.dropWhile_eq_nil_iff] at hnil
      have hxt := hnil x (List.mem_of_getLast?_eq_some hx)
      rw [hxnw] at hxt
      exact Bool.noConfusion hxt
    have hl'head : headNotWsL ((w :: ws).dropWhile isWs) := headNotWsL_dropWhile _
    have hl'last : lastNotWsL ((w :: ws).dropWhile isWs) := by
      intro h hh
      rw [getLast?_dropWhile_isWs _ hl'ne, hx] at hh
      cases hh
      exact hxnw
    have hbound' : ∀ a w', ([] : List Char).head? = some a →
        ((w :: ws).dropWhile isWs).head? = some w' → (isPunctC a && isWs w') = false := by
      intro a w' ha _
      simp at ha
    obtain ⟨ihall, ihchain⟩ :=
      ih (by simpa using hl'ne) (by simpa using hl'head) (by simpa using hl'last) rfl hbound'
    rw [split_aux_cons, if_pos hcond]
    constructor
    · intro c' hc'
      rw [List.mem_cons] at hc'
      rcases hc' with hc' | hc'
      · subst hc'
        refine ⟨by simp, ?_, ?_, ?_⟩
        · intro h hh
          apply hhead h
          rw [List.head?_append] at hh ⊢
          cases hacc : acc.reverse.head? with
          | none => simp [hacc] at hh ⊢; exact hh
          | some y => simp [hacc] at hh ⊢; exact hh
        · intro h hh
          rw [List.getLast?_concat] at hh
          cases hh
          exact punct_not_ws hc
        · apply noPW_append_single c acc.reverse hpw
          intro q hq
          apply hbound q c
          · rw [← List.getLast?_reverse]
            exact hq
          · rfl
      · exact ihall c' hc'
    · exact chainPunct_cons_of _ _ ⟨acc.reverse, c, rfl, hc⟩ ihchain
  | case3 acc c rest hcond ih =>
    intro hcomb hhead hlast hpw hbound
    have hcombeq : (c :: acc).reverse ++ rest = acc.reverse ++ c :: rest := by simp
    have hpw' : noPW (c :: acc).reverse = true := by
      rw [List.reverse_cons]
      apply noPW_append_single c acc.reverse hpw
      intro q hq
      apply hbound q c
      · rw [← List.getLast?_reverse]
        exact hq
      · rfl
    have hbound' : ∀ a w, (c :: acc).head? = some a → rest.head? = some w →
        (isPunctC a && isWs w) = false := by
      intro a w ha hw
      rw [List.head?_cons] at ha
      cases ha
      cases rest with
      | nil => simp at hw
      | cons r rs =>
        rw [List.head?_cons] at hw
        injection hw with hw
        have hfalse : (isPunctC c && headIsWs (r :: rs)) = false :=
          Bool.eq_false_iff.mpr hcond
        rw [← hw]
        simpa [headIsWs] using hfalse
    rw [split_aux_cons, if_neg hcond]
    exact ih (by rw [hcombeq]; exact hcomb) (by rw [hcombeq]; exact hhead)
      (by rw [hcombeq]; exact hlast) hpw' hbound'

theorem wordCount_ne_zero (c : List Char) (hne : c ≠ []) (hh : headNotWsL c) :
    wordCount c ≠ 0 := by
  cases c with
  | nil => exact absurd rfl hne
  | cons x t =>
    have hx : isWs x = false := hh x rfl
    simp [wordCount, wordsOf, hx]

theorem accumulate_mem (n : Nat) : ∀ (cs : List (List Char)) (k : Nat),
    (∀ c ∈ cs, trimChars c = c) →
    ∀ c ∈ accumulate n cs k, c ∈ cs := by
  intro cs
  induction cs with
  | nil => intro k _ c hc; simp [accumulate] at hc
  | cons s rest ih =>
    intro k hall c hc
    have hs : trimChars s = s := hall s (List.mem_cons_self s _)
    have htail : ∀ c' ∈ rest, trimChars c' = c' :=
      fun c' hc' => hall c' (List.mem_cons_of_mem s hc')
    simp only [accumulate, hs] at hc
    by_cases hw : wordCount s = 0
    · rw [if_pos hw] at hc
      exact List.mem_cons_of_mem s (ih k htail c hc)
    · rw [if_neg hw] at hc
      by_cases ht : n ≤ k + wordCount s
      · rw [if_pos ht] at hc
        rw [List.mem_singleton] at hc
        subst hc
        exact List.mem_cons_self _ _
      · rw [if_neg ht] at hc
        rcases List.mem_cons.mp hc with hc | hc
        · subst hc
          exact List.mem_cons_self _ _
        · exact List.mem_cons_of_mem s (ih _ htail c hc)

theorem accumulate_ne_nil (n : Nat) (cs : List (List Char)) (k : Nat) (hne : cs ≠ [])
    (hall : ∀ c ∈ cs, trimChars c = c ∧ wordCount c ≠ 0) :
    accumulate n cs k ≠ [] := by
  cases cs with
  | nil => exact absurd rfl hne
  | cons s rest =>
    have hs := hall s (List.mem_cons_self s _)
    simp only [accumulate, hs.1]
    rw [if_neg hs.2]
    by_cases ht : n ≤ k + wordCount s
    · rw [if_pos ht]; simp
    · rw [if_neg ht]; simp

theorem chainPunct_accumulate (n : Nat) : ∀ (cs : List (List Char)) (k : Nat),
    (∀ c ∈ cs, trimChars c = c) → ChainPunct cs → ChainPunct (accumulate n cs k) := by
  intro cs
  induction cs with
  | nil => intro k _ _; exact trivial
  | cons s rest ih =>
    intro k hall hchain
    have hs : trimChars s = s := hall s (List.mem_cons_self s _)
    have htail : ∀ c ∈ rest, trimChars c = c :=
      fun c hc => hall c (List.mem_cons_of_mem s hc)
    simp only [accumulate, hs]
    by_cases hw : wordCount s = 0
    · rw [if_pos hw]
      exact ih k htail (chainPunct_tail s rest hchain)
    · rw [if_neg hw]
      by_cases ht : n ≤ k + wordCount s
      · rw [if_pos ht]
        exact chainPunct_single s
      · rw [if_neg ht]
        by_cases hr : accumulate n rest (k + wordCount s) = []
        · rw [hr]
          exact chainPunct_single s
        · apply chainPunct_cons_of
          · exact chainPunct_head s rest (fun hrest => hr (by rw [hrest]; rfl)) hchain
          · exact ih _ htail (chainPunct_tail s rest hchain)

theorem accumulate_fix (n : Nat) (cs : List (List Char)) :
    (∀ c ∈ cs, trimChars c = c ∧ wordCount c ≠ 0) →
    ∀ k, accumulate n (accumulate n cs k) k = accumulate n cs k := by
  induction cs with
  | nil => intro _ k; rfl
  | cons s rest ih =>
    intro hall k
    have hs := hall s (List.mem_cons_self s _)
    have htail := fun c hc => hall c (List.mem_cons_of_mem s hc)
    simp only [accumulate, hs.1]
    rw [if_neg hs.2]
    by_cases ht : n ≤ k + wordCount s
    · rw [if_pos ht]
      show accumulate n [s] k = [s]
      simp only [accumulate, hs.1]
      rw [if_neg hs.2, if_pos ht]
    · rw [if_neg ht]
      show accumulate n (s :: accumulate n rest (k + wordCount s)) k =
        s :: accumulate n rest (k + wordCount s)
      simp only [accumulate, hs.1]
      rw [if_neg hs.2, if_neg ht]
      congr 1
      exact ih htail (k + wordCount s)

theorem truncate_eq_join (text : String) (n : Nat)
    (h : trimChars text.data ≠ [])
    (hout : accumulate n (splitSentences (trimChars text.data)) 0 ≠ []) :
    sentenceAwareTruncate text n =
      ⟨joinSp (accumulate n (splitSentences (trimChars text.data)) 0)⟩ := by
  have htext : text.data ≠ [] := by
    intro hh
    apply h
    rw [hh]
    rfl
  unfold sentenceAwareTruncate
  rw [if_neg htext, if_neg h, if_pos (List.length_pos.mpr hout)]

theorem truncate_second_pass (L : List Char) (n : Nat)
    (hne : L ≠ []) (hh : headNotWsL L) (hl : lastNotWsL L) :
    sentenceAwareTruncate ⟨joinSp (accumulate n (splitSentences L) 0)⟩ n
      = ⟨joinSp (accumulate n (splitSentences L) 0)⟩ := by
  obtain ⟨hall, hchain⟩ := split_aux_props [] L (by simpa using hne) (by simpa using hh)
    (by simpa using hl) rfl (by intro a w ha _; simp at ha)
  have hcs_ne : splitSentences L ≠ [] := split_aux_ne_nil [] L
  have hall' : ∀ c ∈ splitSentences L, trimChars c = c ∧ wordCount c ≠ 0 := by
    intro c hc
    obtain ⟨hcne, hchd, hclt, _⟩ := hall c hc
    exact ⟨trim_eq_self c hchd hclt, wordCount_ne_zero c hcne hchd⟩
  have htr : ∀ c ∈ splitSentences L, trimChars c = c := fun c hc => (hall' c hc).1
  have hout_ne : accumulate n (splitSentences L) 0 ≠ [] :=
    accumulate_ne_nil n _ 0 hcs_ne hall'
  have hsub : ∀ c ∈ accumulate n (splitSentences L) 0, c ∈ splitSentences L :=
    accumulate_mem n _ 0 htr
  have hout_chain : ChainPunct (accumulate n (splitSentences L) 0) :=
    chainPunct_accumulate n _ 0 htr hchain
  have hJne : joinSp (accumulate n (splitSentences L) 0) ≠ [] :=
    joinSp_ne_nil _ hout_ne (fun c hc => (hall c (hsub c hc)).1)
  have hJhead : headNotWsL (joinSp (accumulate n (splitSentences L) 0)) :=
    headNotWsL_joinSp _ (fun c hc => ⟨(hall c (hsub c hc)).1, (hall c (hsub c hc)).2.1⟩)
  have hJlast : lastNotWsL (joinSp (accumulate n (splitSentences L) 0)) :=
    lastNotWsL_joinSp _ (fun c hc => ⟨(hall c (hsub c hc)).1, (hall c (hsub c hc)).2.2.1⟩)
  have hJtrim : trimChars (joinSp (accumulate n (splitSentences L) 0))
      = joinSp (accumulate n (splitSentences L) 0) := trim_eq_self _ hJhead hJlast
  have hJsplit : splitSentences (joinSp (accumulate n (splitSentences L) 0))
      = accumulate n (splitSentences L) 0 :=
    resplit _ hout_ne
      (fun c hc => ⟨(hall c (hsub c hc)).1, (hall c (hsub c hc)).2.1, (hall c (hsub c hc)).2.2.2⟩)
      hout_chain
  have hfix : accumulate n (accumulate n (splitSentences L) 0) 0
      = accumulate n (splitSentences L) 0 := accumulate_fix n (splitSentences L) hall' 0
  have hdata : (⟨joinSp (accumulate n (splitSentences L) 0)⟩ : String).data
      = joinSp (accumulate n (splitSentences L) 0) := rfl
  rw [truncate_eq_join ⟨joinSp (accumulate n (splitSentences L) 0)⟩ n
    (by rw [hdata, hJtrim]; exact hJne)
    (by rw [hdata, hJtrim, hJsplit, hfix]; exact hout_ne)]
  rw [hdata, hJtrim, hJsplit, hfix]

/-! ## The claims -/

/-- Claim C1: for `trackers = ["doubleclick.net","google-analytics.com"]`,
`url = "https://example.com"`, no policy text and the AI summarizer unavailable
(the external call fails, so the deterministic fallback summary is produced),
`whoTheyShareWith` contains "Google", the score is 45 (+35 for the 2-tracker
tier, +10 for https) and the grade is D. -/
theorem C1_fallback_pipeline (errMsg : String) :
    "Google" ∈ (summaryOnServiceFailure ["doubleclick.net", "google-analytics.com"]
        "https://example.com" errMsg).summary.whoTheyShareWith ∧
    calculatePrivacyScore "https://example.com" none
        ["doubleclick.net", "google-analytics.com"]
        (some (summaryOnServiceFailure ["doubleclick.net", "google-analytics.com"]
          "https://example.com" errMsg)) = 45 ∧
    getGradeFromScore 45 = "D" := by
  refine ⟨?_, ?_, by decide⟩
  · show "Google" ∈ (createFallbackSummary ["doubleclick.net", "google-analytics.com"]
      "https://example.com").whoTheyShareWith
    decide
  · rw [score_ignores_failed_summary _ _ _ _ rfl]
    decide

/-- Claim C2: the claim says `forceRefresh = true` bypasses the persisted record.
The controller never reads `forceRefresh` (it destructures only `url` and
`simplifiedPolicy`), so the outcome is identical for both flag values, and with a
fresh successful stored record the cache is served even under `forceRefresh =
true` — the code contradicts the claim (and its own frontend caller, which sends
the flag). -/
theorem C2_forceRefresh_ignored :
    (∀ (url : String) (p : Option String) (env : AnalyzeEnv),
      analyzeSite ⟨url, p, true⟩ env = analyzeSite ⟨url, p, false⟩ env) ∧
    analyzeSite ⟨"https://example.com", none, true⟩ envFreshSucc = .cacheHit siteSucc := by
  refine ⟨?_, by decide⟩
  intro url p env
  rfl

/-- Claim C3: a stored record whose summary succeeded is served from cache while
younger than 48 hours; a stored record whose summary did not succeed is stale
from 30 minutes of age on, and a full re-analysis runs instead. -/
theorem C3_cache_ttl (req : AnalyzeRequest) (env : AnalyzeEnv) (site : StoredSite)
    (last : Int) (hdb : env.dbConnected = true) (hex : env.existing = some site)
    (hla : site.lastAnalyzed = some last) :
    ((∃ s, site.aiSummary = some s ∧ s.success = true) →
      env.now - last < successfulCacheDuration →
      analyzeSite req env = .cacheHit site) ∧
    ((∀ s, site.aiSummary = some s → s.success = false) →
      failedCacheDuration ≤ env.now - last →
      analyzeSite req env = freshAnalysis req env) := by
  constructor
  · rintro ⟨s, hsum, hsucc⟩ hage
    simp [analyzeSite, hdb, hex, hla, isCacheValid, hsum, hsucc, hage]
  · intro hfail hage
    have hvalid : isCacheValid site env.now last = false := by
      unfold isCacheValid
      cases hsum : site.aiSummary with
      | none =>
        simp only [decide_eq_false_iff_not]
        omega
      | some s =>
        show (if s.success = true then decide (env.now - last < successfulCacheDuration)
              else decide (env.now - last < failedCacheDuration)) = false
        rw [hfail s hsum]
        simp only [Bool.false_eq_true, if_false, decide_eq_false_iff_not]
        omega
    simp [analyzeSite, hdb, hex, hla, hvalid]

/-- Witness for C3 at both TTL boundaries: a 1-second-old successful record is a
cache hit; a record with no successful summary is re-analyzed at exactly 30
minutes of age. -/
theorem C3_cache_ttl_witness :
    analyzeSite ⟨"https://example.com", none, false⟩ envFreshSucc = .cacheHit siteSucc ∧
    analyzeSite ⟨"https://example.com", none, false⟩ envStaleFailed =
      freshAnalysis ⟨"https://example.com", none, false⟩ envStaleFailed :=
  ⟨(C3_cache_ttl ⟨"https://example.com", none, false⟩ envFreshSucc siteSucc 0
      rfl rfl rfl).1 ⟨⟨true, ⟨[], ["Google"], "x", [], []⟩, none⟩, rfl, rfl⟩ (by decide),
   (C3_cache_ttl ⟨"https://example.com", none, false⟩ envStaleFailed siteNoSummary 0
      rfl rfl rfl).2 (fun s h => by cases h) (by decide)⟩

/-- Claim C4: a navigation timeout is non-fatal (success with the trackers
observed before the timeout), any other navigation or launch error yields
`{success:false, error}`, and on every exit path on which a browser session was
opened, it is closed. -/
theorem C4_detect_failure_semantics (observed : List String) (msg : String) :
    (detectTrackersRun .timeout observed).1.success = true ∧
    (detectTrackersRun .timeout observed).1.detectedTrackers =
      jsSortStrings observed.eraseDups ∧
    (detectTrackersRun (.navError msg) observed).1 = ⟨false, [], some msg⟩ ∧
    (detectTrackersRun (.launchFailure msg) observed).1 = ⟨false, [], some msg⟩ ∧
    (∀ o : NavOutcome, (detectTrackersRun o observed).2.opened = true →
      (detectTrackersRun o observed).2.closed = true) := by
  refine ⟨rfl, rfl, rfl, rfl, ?_⟩
  intro o h
  cases o <;> simp_all [detectTrackersRun]

/-- Witness for C4: a concrete timed-out run closed its browser session. -/
theorem C4_witness : (detectTrackersRun .timeout ["x.com"]).2.closed = true :=
  (C4_detect_failure_semantics ["x.com"] "e").2.2.2.2 .timeout rfl

/-- Counterexample to C5 as stated: with a successful summary sharing with six
entries that all mention Google (one distinct high-risk company), the spec
reading "3 per distinct company" gives 62 while the code scores 50 — the source
counts matching entries, not distinct companies. -/
theorem C5_counterexample :
    ¬ (calculatePrivacyScore "https://a.com" none []
        (some ⟨true, ⟨[], ["Google One", "Google Two", "Google Three",
          "Google Four", "Google Five", "Google Six"], "x", [], []⟩, none⟩)
      = 40 + 10 + 15 - specDistinctHighRiskPenalty ["Google One", "Google Two",
          "Google Three", "Google Four", "Google Five", "Google Six"]) := by
  decide

/-- Claim C5 amended: when the summary succeeded, the score subtracts 3 points per
**entry** of `whoTheyShareWith` that mentions a high-risk company (Meta, Google,
Amazon), and this penalty is capped at 15 points. -/
theorem C5_high_risk_penalty (url : String) (p : Option String) (t : List String)
    (s : AISummary) (h : s.success = true) :
    calculatePrivacyScore url p t (some s) =
      clampScore (rawPrivacyScore url p t none
        + (if s.summary.keyRisks.length ≤ 2 then 15
           else if s.summary.keyRisks.length ≤ 4 then 10 else 5)
        - min ((highRiskEntryCount s.summary.whoTheyShareWith : Int) * 3) 15) ∧
    min ((highRiskEntryCount s.summary.whoTheyShareWith : Int) * 3) 15 ≤ 15 := by
  refine ⟨?_, min_le_right _ _⟩
  simp only [calculatePrivacyScore, rawPrivacyScore, h, if_true]
  congr 1
  ring

/-- Witness for C5 (amended): concrete successful summary with one Google entry. -/
theorem C5_witness :
    calculatePrivacyScore "https://a.com" none []
        (some ⟨true, ⟨[], ["Google One"], "x", ["r1", "r2", "r3"], []⟩, none⟩) =
      clampScore (rawPrivacyScore "https://a.com" none [] none
        + (if (["r1", "r2", "r3"] : List String).length ≤ 2 then 15
           else if (["r1", "r2", "r3"] : List String).length ≤ 4 then 10 else 5)
        - min ((highRiskEntryCount ["Google One"] : Int) * 3) 15) ∧
    min ((highRiskEntryCount ["Google One"] : Int) * 3) 15 ≤ 15 :=
  C5_high_risk_penalty "https://a.com" none []
    ⟨true, ⟨[], ["Google One"], "x", ["r1", "r2", "r3"], []⟩, none⟩ rfl

/-- Counterexample to C6 as stated: the claim asserts Grade(79) = C, but the
source's table gives "B" at 79 (the C band is 60–64). -/
theorem C6_counterexample :
    getGradeFromScore 79 = "B" ∧ getGradeFromScore 79 ≠ "C" := by decide

/-- Claim C6 amended: the 13-bucket grade table is boundary-exact with
Grade(95) = A+, Grade(94) = A, Grade(79) = B, and every score below 40 maps to F. -/
theorem C6_grade_boundaries :
    getGradeFromScore 95 = "A+" ∧ getGradeFromScore 94 = "A" ∧
    getGradeFromScore 79 = "B" ∧
    ∀ s : Int, s < 40 → getGradeFromScore s = "F" := by
  refine ⟨by decide, by decide, by decide, ?_⟩
  intro s h
  unfold getGradeFromScore
  repeat rw [if_neg (by omega)]

/-- Witness for C6: a concrete below-40 score grades F. -/
theorem C6_witness : getGradeFromScore 39 = "F" :=
  C6_grade_boundaries.2.2.2 39 (by decide)

/-- Claim C7: classification is a total, deterministic, side-effect-free function
of the hostname string, and any hostname containing the substring "doubleclick"
is classified Advertising with company Google (the first rule of the ordered
table fires). -/
theorem C7_classifier_doubleclick (d : String)
    (h : "doubleclick".data <:+: d.data) :
    classifyDomain d = classifyDomain d ∧
    (classifyDomain d).category = "Advertising" ∧
    (classifyDomain d).company = "Google" := by
  have hc : containsStr d "doubleclick" = true := (subList_iff _ _).mpr h
  have hrule : (classifyRules.find? (fun r => r.1.any (fun pat => containsStr d pat)))
      = some (["doubleclick", "googlesyndication", "googleadservices",
          "ads.google", "adservice.google"], ⟨"Google Ads", "Advertising", "Google"⟩) := by
    rw [classifyRules]
    exact List.find?_cons_of_pos _ (by simp [hc])
  refine ⟨rfl, ?_, ?_⟩ <;> simp [classifyDomain, hrule]

/-- Witness for C7 at a concrete doubleclick hostname. -/
theorem C7_witness :
    (classifyDomain "stats.doubleclick.net").category = "Advertising" ∧
    (classifyDomain "stats.doubleclick.net").company = "Google" :=
  ⟨(C7_classifier_doubleclick "stats.doubleclick.net" (by decide)).2.1,
   (C7_classifier_doubleclick "stats.doubleclick.net" (by decide)).2.2⟩

/-- Claim C8: sentence-aware truncation is idempotent — for every string and
every word budget, truncating a second time with the same budget leaves the
result unchanged. -/
theorem C8_truncate_idempotent (text : String) (n : Nat) :
    sentenceAwareTruncate (sentenceAwareTruncate text n) n = sentenceAwareTruncate text n := by
  by_cases h0 : text.data = []
  · have hT : sentenceAwareTruncate text n = text := by
      unfold sentenceAwareTruncate
      rw [if_pos h0]
    rw [hT]
    exact hT
  · by_cases h1 : trimChars text.data = []
    · have hT : sentenceAwareTruncate text n = ⟨trimChars text.data⟩ := by
        unfold sentenceAwareTruncate
        rw [if_neg h0, if_pos h1]
      rw [hT, h1]
      unfold sentenceAwareTruncate
      rw [if_pos rfl]
    · obtain ⟨hh, hl⟩ := trimChars_head_last text.data
      have hall' : ∀ c ∈ splitSentences (trimChars text.data),
          trimChars c = c ∧ wordCount c ≠ 0 := by
        obtain ⟨hall, _⟩ := split_aux_props [] (trimChars text.data) (by simpa using h1)
          (by simpa using hh) (by simpa using hl) rfl (by intro a w ha _; simp at ha)
        intro c hc
        obtain ⟨hcne, hchd, hclt, _⟩ := hall c hc
        exact ⟨trim_eq_self c hchd hclt, wordCount_ne_zero c hcne hchd⟩
      have hout_ne : accumulate n (splitSentences (trimChars text.data)) 0 ≠ [] :=
        accumulate_ne_nil n _ 0 (split_aux_ne_nil [] _) hall'
      rw [truncate_eq_join text n h1 hout_ne]
      exact truncate_second_pass (trimChars text.data) n h1 hh hl

/-- Claim C9: both scoring variants always produce a score in [0,100], and raw
additive totals below 0 or above 100 clamp to exactly 0 or exactly 100. -/
theorem C9_score_clamped (url : String) (p : Option String) (t : List String)
    (ai : Option AISummary) (urlF : String) (pF : Option String) (n : Nat)
    (aiF : Option AISummary) :
    (0 ≤ calculatePrivacyScore url p t ai ∧ calculatePrivacyScore url p t ai ≤ 100) ∧
    (0 ≤ Frontend.calculateDynamicPrivacyScore urlF pF n aiF ∧
      Frontend.calculateDynamicPrivacyScore urlF pF n aiF ≤ 100) ∧
    (rawPrivacyScore url p t ai < 0 → calculatePrivacyScore url p t ai = 0) ∧
    (100 < rawPrivacyScore url p t ai → calculatePrivacyScore url p t ai = 100) ∧
    (Frontend.rawDynamicScore urlF pF n aiF < 0 →
      Frontend.calculateDynamicPrivacyScore urlF pF n aiF = 0) ∧
    (100 < Frontend.rawDynamicScore urlF pF n aiF →
      Frontend.calculateDynamicPrivacyScore urlF pF n aiF = 100) :=
  ⟨⟨clampScore_nonneg _, clampScore_le_100 _⟩,
   ⟨clampScore_nonneg _, clampScore_le_100 _⟩,
   fun h => clampScore_of_neg _ h,
   fun h => clampScore_of_gt_100 _ h,
   fun h => clampScore_of_neg _ h,
   fun h => clampScore_of_gt_100 _ h⟩

/-- Witness for C9: a raw total of −24 (16 trackers, no TLS, all negative
keywords) clamps to 0 server-side; a raw total of 116 (0 unblocked trackers,
https, all positive keywords, successful low-risk summary) clamps to 100
client-side. -/
theorem C9_witness :
    calculatePrivacyScore "http://x.com"
        (some "sell data third party advertisers share data indefinitely partners affiliates marketing")
        ["a", "b", "c", "d", "e", "f", "g", "h", "i", "j", "k", "l", "m", "n", "o", "p"]
        none = 0 ∧
    Frontend.calculateDynamicPrivacyScore "https://x.com"
        (some "encrypted no data sharing gdpr privacy focused user control opt-out delete data minimal collection")
        0 (some ⟨true, ⟨[], [], "x", [], []⟩, none⟩) = 100 :=
  ⟨(C9_score_clamped "http://x.com"
      (some "sell data third party advertisers share data indefinitely partners affiliates marketing")
      ["a", "b", "c", "d", "e", "f", "g", "h", "i", "j", "k", "l", "m", "n", "o", "p"]
      none "https://x.com"
      (some "encrypted no data sharing gdpr privacy focused user control opt-out delete data minimal collection")
      0 (some ⟨true, ⟨[], [], "x", [], []⟩, none⟩)).2.2.1 (by decide),
   (C9_score_clamped "http://x.com"
      (some "sell data third party advertisers share data indefinitely partners affiliates marketing")
      ["a", "b", "c", "d", "e", "f", "g", "h", "i", "j", "k", "l", "m", "n", "o", "p"]
      none "https://x.com"
      (some "encrypted no data sharing gdpr privacy focused user control opt-out delete data minimal collection")
      0 (some ⟨true, ⟨[], [], "x", [], []⟩, none⟩)).2.2.2.2.2 (by decide)⟩

/-- Claim C10 (implicit frame effect): `generateAIPrivacySummary` sorts its
`trackers` argument in place while building the cache key, so after every call
the caller's array is the ascending lexicographic permutation of its previous
contents — and an unsorted input is observably changed. -/
theorem C10_trackers_sorted_in_place (trackers : List String) :
    List.Sorted (fun a b => charsLe a.data b.data = true) (summarizeTrackersAfter trackers) ∧
    List.Perm (summarizeTrackersAfter trackers) trackers ∧
    summarizeTrackersAfter ["b.net", "a.com"] ≠ ["b.net", "a.com"] := by
  letI : IsTotal String (fun a b => charsLe a.data b.data = true) :=
    ⟨fun a b => charsLe_total a.data b.data⟩
  letI : IsTrans String (fun a b => charsLe a.data b.data = true) :=
    ⟨fun a b c => charsLe_trans a.data b.data c.data⟩
  refine ⟨List.sorted_insertionSort _ _, List.perm_insertionSort _ _, by decide⟩

end DataGuardian
